import Mathlib

/-!
Verification of the life-calendar generator (`generate_life_calendar.py`).

The date model mirrors CPython `datetime`: a date is a (year, month, day)
triple, ordered by its proleptic-Gregorian ordinal (`date.toordinal`), with
`//` and `%` being floor division and nonnegative remainder, exactly as in
Python.  Floating point layout arithmetic is modelled over `ℚ`, and the text
measurement capability (`cairo` text extents) is an arbitrary function
parameter `measure : String → ℚ`.
-/

set_option autoImplicit false

/-- Python `calendar.isleap`. -/
def isLeap (y : ℤ) : Bool :=
  y % 4 == 0 && (y % 100 != 0 || y % 400 == 0)

/-- Number of days of month `m` (1..12) in year `y`, as in `datetime`. -/
def daysInMonth (y : ℤ) (m : ℕ) : ℕ :=
  if m = 2 then (if isLeap y then 29 else 28)
  else if m = 4 ∨ m = 6 ∨ m = 9 ∨ m = 11 then 30
  else 31

/-- Number of days in year `y` strictly before month `m` (datetime `_days_before_month`). -/
def daysBeforeMonth (y : ℤ) : ℕ → ℕ
  | 0 => 0
  | 1 => 0
  | m + 2 => daysBeforeMonth y (m + 1) + daysInMonth y (m + 1)

/-- Number of days before January 1st of year `y` (datetime `_days_before_year`). -/
def daysBeforeYear (y : ℤ) : ℤ :=
  365 * (y - 1) + (y - 1) / 4 - (y - 1) / 100 + (y - 1) / 400

/-- A (year, month, day) triple, as held by a Python `datetime` object. -/
structure PyDate where
  year : ℤ
  month : ℕ
  day : ℕ
deriving DecidableEq, Repr

/-- Python `date.toordinal`: day 1 is January 1st of year 1. -/
def toOrdinal (d : PyDate) : ℤ :=
  daysBeforeYear d.year + daysBeforeMonth d.year d.month + d.day

/-- The month/day ranges `datetime.datetime(y, m, d)` accepts. -/
def PyDate.valid (d : PyDate) : Prop :=
  1 ≤ d.month ∧ d.month ≤ 12 ∧ 1 ≤ d.day ∧ d.day ≤ daysInMonth d.year d.month

instance (d : PyDate) : Decidable (PyDate.valid d) := by
  unfold PyDate.valid
  exact inferInstance

/-- `datetime.datetime(y, m, d)`: the constructor validates month and day and
raises `ValueError` (here: `none`) when they are out of range. -/
def mkDate (y : ℤ) (m d : ℕ) : Option PyDate :=
  if PyDate.valid ⟨y, m, d⟩ then some ⟨y, m, d⟩ else none

/-- The day after `d` (`d + datetime.timedelta(days=1)` on valid dates). -/
def nextDay (d : PyDate) : PyDate :=
  if d.day < daysInMonth d.year d.month then ⟨d.year, d.month, d.day + 1⟩
  else if d.month < 12 then ⟨d.year, d.month + 1, 1⟩
  else ⟨d.year + 1, 1, 1⟩

/-- The day before `d` (`d - datetime.timedelta(days=1)` on valid dates). -/
def prevDay (d : PyDate) : PyDate :=
  if 2 ≤ d.day then ⟨d.year, d.month, d.day - 1⟩
  else if 2 ≤ d.month then ⟨d.year, d.month - 1, daysInMonth d.year (d.month - 1)⟩
  else ⟨d.year - 1, 12, 31⟩

/-- `d + datetime.timedelta(days=n)` on valid dates. -/
def addDays (d : PyDate) : ℕ → PyDate
  | 0 => d
  | n + 1 => nextDay (addDays d n)

/-- Python `date.weekday()`: `(toordinal + 6) % 7`, Monday = 0 .. Sunday = 6. -/
def weekday (d : PyDate) : ℤ :=
  (toOrdinal d + 6) % 7

lemma daysInMonth_pos (y : ℤ) (m : ℕ) : 1 ≤ daysInMonth y m := by
  unfold daysInMonth
  split
  · split <;> norm_num
  · split <;> norm_num

lemma daysBeforeMonth_step (y : ℤ) (m : ℕ) (hm : 1 ≤ m) :
    daysBeforeMonth y (m + 1) = daysBeforeMonth y m + daysInMonth y m := by
  match m, hm with
  | (k + 1), _ => rfl

/-- Floor division: subtracting one from the numerator drops the quotient by
one exactly at multiples of `k`. -/
lemma ediv_sub_one (y k : ℤ) (hk : 0 < k) :
    (y - 1) / k = y / k - (if k ∣ y then 1 else 0) := by
  by_cases h : k ∣ y
  · obtain ⟨c, rfl⟩ := h
    have h1 : k * c - 1 = (k - 1) + (c - 1) * k := by ring
    rw [h1, Int.add_mul_ediv_right _ _ (by omega : k ≠ 0),
      Int.ediv_eq_zero_of_lt (by omega) (by omega),
      Int.mul_ediv_cancel_left _ (by omega : k ≠ 0)]
    simp
  · have h0 : 0 ≤ y % k := Int.emod_nonneg y (by omega)
    have hlt : y % k < k := Int.emod_lt_of_pos y hk
    have hne : y % k ≠ 0 := fun hh => h (Int.dvd_of_emod_eq_zero hh)
    have hy : k * (y / k) + y % k = y := Int.ediv_add_emod y k
    have h1 : y - 1 = (y % k - 1) + (y / k) * k := by linear_combination -hy
    rw [h1, Int.add_mul_ediv_right _ _ (by omega : k ≠ 0),
      Int.ediv_eq_zero_of_lt (by omega) (by omega)]
    simp [h]

lemma isLeap_iff (y : ℤ) :
    isLeap y = true ↔ (4 ∣ y ∧ (¬ (100 ∣ y) ∨ 400 ∣ y)) := by
  simp only [isLeap, Bool.and_eq_true, Bool.or_eq_true, beq_iff_eq, bne_iff_ne,
    ne_eq, Int.emod_emod_of_dvd]
  constructor
  · rintro ⟨h4, h⟩
    refine ⟨Int.dvd_of_emod_eq_zero h4, ?_⟩
    rcases h with h | h
    · exact Or.inl (fun hd => h (Int.emod_eq_zero_of_dvd hd))
    · exact Or.inr (Int.dvd_of_emod_eq_zero h)
  · rintro ⟨h4, h⟩
    refine ⟨Int.emod_eq_zero_of_dvd h4, ?_⟩
    rcases h with h | h
    · exact Or.inl (fun hd => h (Int.dvd_of_emod_eq_zero hd))
    · exact Or.inr (Int.emod_eq_zero_of_dvd h)

lemma daysBeforeYear_succ (y : ℤ) :
    daysBeforeYear (y + 1) = daysBeforeYear y + 365 + (if isLeap y = true then 1 else 0) := by
  have e4 := ediv_sub_one y 4 (by norm_num)
  have e100 := ediv_sub_one y 100 (by norm_num)
  have e400 := ediv_sub_one y 400 (by norm_num)
  have hyy : y + 1 - 1 = y := by ring
  unfold daysBeforeYear
  rw [hyy, e4, e100, e400]
  by_cases d4 : (4 : ℤ) ∣ y
  · by_cases d100 : (100 : ℤ) ∣ y
    · by_cases d400 : (400 : ℤ) ∣ y
      · have hl : isLeap y = true := (isLeap_iff y).mpr ⟨d4, Or.inr d400⟩
        simp [d4, d100, d400, hl]
        ring
      · have hl : isLeap y = false := by
          rcases Bool.eq_false_or_eq_true (isLeap y) with h | h
          · rcases ((isLeap_iff y).mp h).2 with h' | h'
            · exact absurd d100 h'
            · exact absurd h' d400
          · exact h
        simp [d4, d100, d400, hl]
        ring
    · have d400 : ¬ (400 : ℤ) ∣ y := fun h => d100 (dvd_trans ⟨4, by norm_num⟩ h)
      have hl : isLeap y = true := (isLeap_iff y).mpr ⟨d4, Or.inl d100⟩
      simp [d4, d100, d400, hl]
      ring
  · have d100 : ¬ (100 : ℤ) ∣ y := fun h => d4 (dvd_trans ⟨25, by norm_num⟩ h)
    have d400 : ¬ (400 : ℤ) ∣ y := fun h => d4 (dvd_trans ⟨100, by norm_num⟩ h)
    have hl : isLeap y = false := by
      rcases Bool.eq_false_or_eq_true (isLeap y) with h | h
      · exact absurd ((isLeap_iff y).mp h).1 d4
      · exact h
    simp [d4, d100, d400, hl]
    ring

lemma daysInMonth_ne_two (y y' : ℤ) (m : ℕ) (hm : m ≠ 2) :
    daysInMonth y m = daysInMonth y' m := by
  unfold daysInMonth
  simp [hm]

/-- Relative to a non-leap year (year 1), a leap year shifts the cumulative
month offsets from March on by exactly one day. -/
lemma daysBeforeMonth_split (y : ℤ) :
    ∀ m : ℕ, (daysBeforeMonth y m : ℤ) =
      (daysBeforeMonth 1 m : ℤ) + (if 3 ≤ m ∧ isLeap y = true then 1 else 0)
  | 0 => by simp [daysBeforeMonth]
  | 1 => by simp [daysBeforeMonth]
  | (m + 2) => by
    have ih := daysBeforeMonth_split y (m + 1)
    show ((daysBeforeMonth y (m + 1) + daysInMonth y (m + 1) : ℕ) : ℤ) = _
    match m with
    | 0 =>
      norm_num [daysBeforeMonth, daysInMonth]
    | 1 =>
      have h1 : isLeap (1 : ℤ) = false := by decide
      by_cases hy : isLeap y = true <;>
        simp [daysBeforeMonth, daysInMonth, hy, h1]
    | (k + 2) =>
      have hne : (k + 3 : ℕ) ≠ 2 := by omega
      have hdm : daysInMonth y (k + 3) = daysInMonth 1 (k + 3) :=
        daysInMonth_ne_two y 1 (k + 3) hne
      have hstep : daysBeforeMonth 1 (k + 3 + 1) = daysBeforeMonth 1 (k + 3) + daysInMonth 1 (k + 3) :=
        daysBeforeMonth_step 1 (k + 3) (by omega)
      have ih' : (daysBeforeMonth y (k + 3) : ℤ) =
          (daysBeforeMonth 1 (k + 3) : ℤ) + (if 3 ≤ (k + 3 : ℕ) ∧ isLeap y = true then 1 else 0) := ih
      have h3 : 3 ≤ (k + 3 : ℕ) := by omega
      have h4 : 3 ≤ (k + 3 + 1 : ℕ) := by omega
      show ((daysBeforeMonth y (k + 3) + daysInMonth y (k + 3) : ℕ) : ℤ) =
        (daysBeforeMonth 1 (k + 3 + 1) : ℤ) + (if 3 ≤ (k + 3 + 1 : ℕ) ∧ isLeap y = true then 1 else 0)
      rw [hstep]
      push_cast
      rw [ih', hdm]
      simp only [h3, h4, true_and]
      by_cases hy : isLeap y = true <;> (simp [hy]; try ring)

lemma daysBeforeMonth_twelve (y : ℤ) :
    (daysBeforeMonth y 12 : ℤ) = 334 + (if isLeap y = true then 1 else 0) := by
  have h := daysBeforeMonth_split y 12
  have h1 : (daysBeforeMonth 1 12 : ℕ) = 334 := by decide
  rw [h1] at h
  simpa using h

lemma daysInMonth_twelve (y : ℤ) : daysInMonth y 12 = 31 := by
  norm_num [daysInMonth]

lemma toOrdinal_nextDay (d : PyDate) (h : PyDate.valid d) :
    toOrdinal (nextDay d) = toOrdinal d + 1 := by
  obtain ⟨hm1, hm12, hd1, hdm⟩ := h
  unfold nextDay toOrdinal
  by_cases h1 : d.day < daysInMonth d.year d.month
  · simp only [h1, if_true]
    push_cast
    ring
  · have hde : d.day = daysInMonth d.year d.month := by omega
    by_cases h2 : d.month < 12
    · simp only [h1, if_false, h2, if_true]
      have hs := daysBeforeMonth_step d.year d.month hm1
      rw [hs, hde]
      push_cast
      ring
    · have hm : d.month = 12 := by omega
      simp only [h1, if_false, h2, if_true]
      have hy := daysBeforeYear_succ d.year
      have h12 : (daysBeforeMonth d.year 12 : ℤ) = 334 + (if isLeap d.year = true then 1 else 0) :=
        daysBeforeMonth_twelve d.year
      have h31 : daysInMonth d.year 12 = 31 := daysInMonth_twelve d.year
      rw [hm] at hde
      rw [h31] at hde
      simp only [hm, hde]
      rw [hy, h12]
      norm_num [daysBeforeMonth]
      ring

lemma valid_nextDay (d : PyDate) (h : PyDate.valid d) : PyDate.valid (nextDay d) := by
  obtain ⟨hm1, hm12, hd1, hdm⟩ := h
  unfold nextDay PyDate.valid
  by_cases h1 : d.day < daysInMonth d.year d.month
  · simp only [h1, if_true]
    exact ⟨hm1, hm12, by omega, by omega⟩
  · by_cases h2 : d.month < 12
    · simp only [h1, if_false, h2, if_true]
      exact ⟨by omega, by omega, le_refl 1, daysInMonth_pos _ _⟩
    · simp only [h1, if_false, h2, if_true]
      refine ⟨by norm_num, by norm_num, by norm_num, ?_⟩
      norm_num [daysInMonth]

lemma toOrdinal_prevDay (d : PyDate) (h : PyDate.valid d) :
    toOrdinal (prevDay d) = toOrdinal d - 1 := by
  obtain ⟨hm1, hm12, hd1, hdm⟩ := h
  unfold prevDay toOrdinal
  by_cases h1 : 2 ≤ d.day
  · simp only [h1, if_true]
    have : ((d.day - 1 : ℕ) : ℤ) = (d.day : ℤ) - 1 := by omega
    rw [this]
    ring
  · have hde : d.day = 1 := by omega
    by_cases h2 : 2 ≤ d.month
    · simp only [h1, if_false, h2, if_true]
      have hs : daysBeforeMonth d.year (d.month - 1 + 1) =
          daysBeforeMonth d.year (d.month - 1) + daysInMonth d.year (d.month - 1) :=
        daysBeforeMonth_step d.year (d.month - 1) (by omega)
      have hmm : d.month - 1 + 1 = d.month := by omega
      rw [hmm] at hs
      rw [hs, hde]
      push_cast
      ring
    · have hm : d.month = 1 := by omega
      simp only [h1, if_false, h2, if_false]
      have hy := daysBeforeYear_succ (d.year - 1)
      have hyy : d.year - 1 + 1 = d.year := by ring
      rw [hyy] at hy
      have h12 : (daysBeforeMonth (d.year - 1) 12 : ℤ) =
          334 + (if isLeap (d.year - 1) = true then 1 else 0) :=
        daysBeforeMonth_twelve (d.year - 1)
      simp only [hm, hde]
      rw [hy, h12]
      norm_num [daysBeforeMonth]
      ring

lemma valid_prevDay (d : PyDate) (h : PyDate.valid d) : PyDate.valid (prevDay d) := by
  obtain ⟨hm1, hm12, hd1, hdm⟩ := h
  unfold prevDay PyDate.valid
  by_cases h1 : 2 ≤ d.day
  · simp only [h1, if_true]
    exact ⟨hm1, hm12, by omega, by omega⟩
  · by_cases h2 : 2 ≤ d.month
    · simp only [h1, if_false, h2, if_true]
      exact ⟨by omega, by omega, daysInMonth_pos _ _, le_refl _⟩
    · simp only [h1, if_false, h2, if_false]
      refine ⟨by norm_num, by norm_num, by norm_num, ?_⟩
      norm_num [daysInMonth]

lemma toOrdinal_addDays (d : PyDate) (h : PyDate.valid d) (n : ℕ) :
    PyDate.valid (addDays d n) ∧ toOrdinal (addDays d n) = toOrdinal d + n := by
  induction n with
  | zero => exact ⟨h, by simp [addDays]⟩
  | succ k ih =>
    refine ⟨valid_nextDay _ ih.1, ?_⟩
    show toOrdinal (nextDay (addDays d k)) = _
    rw [toOrdinal_nextDay _ ih.1, ih.2]
    push_cast
    ring

lemma addDays_addDays (d : PyDate) (a b : ℕ) :
    addDays (addDays d a) b = addDays d (a + b) := by
  induction b with
  | zero => rfl
  | succ k ih =>
    show nextDay (addDays (addDays d a) k) = addDays d (a + (k + 1))
    rw [ih]
    rfl

lemma weekday_eq_six_iff (d : PyDate) : weekday d = 6 ↔ toOrdinal d % 7 = 0 := by
  unfold weekday
  omega

lemma emod_pred_toNat_lt (t : ℤ) (h : t % 7 ≠ 0) :
    ((t - 1) % 7).toNat < (t % 7).toNat := by
  omega

/-- `back_up_to_sunday`: walk one day back until the weekday is Sunday (6).
The validity hypothesis reflects that the Python loop only ever runs on
constructor-validated `datetime` values. -/
def back_up_to_sunday (d : PyDate) (h : PyDate.valid d) : PyDate :=
  if _hsun : weekday d = 6 then d
  else back_up_to_sunday (prevDay d) (valid_prevDay d h)
termination_by (toOrdinal d % 7).toNat
decreasing_by
  rw [toOrdinal_prevDay d h]
  exact emod_pred_toNat_lt _ (fun h0 => _hsun ((weekday_eq_six_iff d).mpr h0))

lemma back_up_to_sunday_eq (d : PyDate) (h : PyDate.valid d) :
    back_up_to_sunday d h =
      if weekday d = 6 then d else back_up_to_sunday (prevDay d) (valid_prevDay d h) := by
  rw [back_up_to_sunday]
  split <;> rfl

lemma back_up_to_sunday_aux : ∀ (n : ℕ) (d : PyDate) (h : PyDate.valid d),
    (toOrdinal d % 7).toNat = n →
    weekday (back_up_to_sunday d h) = 6 ∧ PyDate.valid (back_up_to_sunday d h) ∧
      toOrdinal (back_up_to_sunday d h) ≤ toOrdinal d ∧
      toOrdinal d - toOrdinal (back_up_to_sunday d h) < 7 := by
  intro n
  induction n using Nat.strong_induction_on with
  | _ n ih =>
    intro d h hn
    rw [back_up_to_sunday_eq]
    by_cases hs : weekday d = 6
    · rw [if_pos hs]
      exact ⟨hs, h, le_refl _, by norm_num⟩
    · rw [if_neg hs]
      have hmod : toOrdinal d % 7 ≠ 0 := fun h0 => hs ((weekday_eq_six_iff d).mpr h0)
      have hp := toOrdinal_prevDay d h
      have hdec : ((toOrdinal (prevDay d)) % 7).toNat < n := by
        rw [hp, ← hn]
        exact emod_pred_toNat_lt _ hmod
      have hrec := ih _ hdec (prevDay d) (valid_prevDay d h) rfl
      refine ⟨hrec.1, hrec.2.1, ?_, ?_⟩
      · omega
      · have h0 : 0 ≤ toOrdinal d % 7 := Int.emod_nonneg _ (by norm_num)
        have h7 : toOrdinal d % 7 < 7 := Int.emod_lt_of_pos _ (by norm_num)
        have hsun : toOrdinal (back_up_to_sunday (prevDay d) (valid_prevDay d h)) % 7 = 0 :=
          (weekday_eq_six_iff _).mp hrec.1
        omega

/-- `is_future(now, date)`: `now < date` on datetimes. -/
def is_future (now date : PyDate) : Bool :=
  decide (toOrdinal now < toOrdinal date)

/-- One iteration of the `is_current_week` loop body: try to build
`datetime(year, month, day)`; on `ValueError` substitute day 28 when the
target is February 29, otherwise re-raise (`none`). -/
def weekCandidate (year : ℤ) (month day : ℕ) : Option PyDate :=
  match mkDate year month day with
  | some dt => some dt
  | none => if month = 2 ∧ day = 29 then mkDate year month (day - 1) else none

/-- `is_current_week(now, month, day)`: true iff the target month/day, built
in year `now.year` or `now.year + 1`, lands inside `[now, now + 1 week)`.
`none` models an uncaught `ValueError`. -/
def is_current_week (now : PyDate) (month day : ℕ) : Option Bool :=
  (weekCandidate now.year month day).bind fun d1 =>
    (weekCandidate (now.year + 1) month day).map fun d2 =>
      decide (toOrdinal now ≤ toOrdinal d1 ∧ toOrdinal d1 < toOrdinal now + 7) ||
      decide (toOrdinal now ≤ toOrdinal d2 ∧ toOrdinal d2 < toOrdinal now + 7)

/-- Membership of `dt` in the half-open week window `[now, now + 7 days)`. -/
def inWeekWindow (now dt : PyDate) : Prop :=
  toOrdinal now ≤ toOrdinal dt ∧ toOrdinal dt < toOrdinal now + 7

instance (now dt : PyDate) : Decidable (inWeekWindow now dt) := by
  unfold inWeekWindow
  exact inferInstance

/-- The largest length month `m` ever has (Feb 29 included). -/
def monthMaxDays (m : ℕ) : ℕ :=
  if m = 2 then 29 else daysInMonth 1 m

/-- A (month, day) pair that names an actual calendar date in at least one
year: exactly the pairs `is_current_week` can be reached with. -/
def valid_month_day (m d : ℕ) : Prop :=
  1 ≤ m ∧ m ≤ 12 ∧ 1 ≤ d ∧ d ≤ monthMaxDays m

instance (m d : ℕ) : Decidable (valid_month_day m d) := by
  unfold valid_month_day
  exact inferInstance

lemma daysInMonth_two_ge (y : ℤ) : 28 ≤ daysInMonth y 2 := by
  unfold daysInMonth
  norm_num
  split <;> norm_num

lemma daysInMonth_le_max (y : ℤ) (m : ℕ) : daysInMonth y m ≤ monthMaxDays m := by
  by_cases hm : m = 2
  · subst hm
    unfold daysInMonth monthMaxDays
    norm_num
    split <;> norm_num
  · rw [monthMaxDays, if_neg hm, daysInMonth_ne_two y 1 m hm]

lemma weekCandidate_spec (y : ℤ) (m d : ℕ) (h : valid_month_day m d) :
    ∃ dd : ℕ, weekCandidate y m d = some ⟨y, m, dd⟩ ∧ PyDate.valid ⟨y, m, dd⟩ ∧
      d - 1 ≤ dd ∧ dd ≤ d := by
  obtain ⟨hm1, hm12, hd1, hdmax⟩ := h
  unfold weekCandidate mkDate
  by_cases hv : PyDate.valid ⟨y, m, d⟩
  · exact ⟨d, by simp [hv], hv, by omega, le_refl d⟩
  · have hm2 : m = 2 := by
      by_contra hne
      exact hv ⟨hm1, hm12, hd1, by
        rw [daysInMonth_ne_two y 1 m hne]
        rw [monthMaxDays, if_neg hne] at hdmax
        exact hdmax⟩
    subst hm2
    rw [monthMaxDays, if_pos rfl] at hdmax
    have hd29 : d = 29 := by
      by_contra hne
      exact hv ⟨hm1, hm12, hd1, by
        have : d ≤ 28 := by omega
        exact le_trans this (daysInMonth_two_ge y)⟩
    subst hd29
    have hv28 : PyDate.valid ⟨y, 2, 28⟩ :=
      ⟨by norm_num, by norm_num, by norm_num, daysInMonth_two_ge y⟩
    refine ⟨28, ?_, hv28, by norm_num, by norm_num⟩
    simp [hv, hv28]

/-- The two candidate dates of a single `is_current_week` call are at least
363 days apart, hence can never both lie in one 7-day window. -/
lemma weekCandidate_gap (y : ℤ) (m d : ℕ) (h : valid_month_day m d) :
    ∃ dd1 dd2 : ℕ, weekCandidate y m d = some ⟨y, m, dd1⟩ ∧
      weekCandidate (y + 1) m d = some ⟨y + 1, m, dd2⟩ ∧
      toOrdinal ⟨y, m, dd1⟩ + 7 ≤ toOrdinal ⟨y + 1, m, dd2⟩ := by
  obtain ⟨dd1, he1, _, hlo1, hhi1⟩ := weekCandidate_spec y m d h
  obtain ⟨dd2, he2, _, hlo2, hhi2⟩ := weekCandidate_spec (y + 1) m d h
  refine ⟨dd1, dd2, he1, he2, ?_⟩
  have hy : daysBeforeYear y + 365 ≤ daysBeforeYear (y + 1) := by
    rw [daysBeforeYear_succ]
    split <;> omega
  have hbm : (daysBeforeMonth y m : ℤ) - 1 ≤ (daysBeforeMonth (y + 1) m : ℤ) := by
    rw [daysBeforeMonth_split y m, daysBeforeMonth_split (y + 1) m]
    split <;> split <;> omega
  have hd1 : 1 ≤ d := h.2.2.1
  unfold toOrdinal
  simp only
  omega

lemma is_current_week_run (now : PyDate) (m d : ℕ) (h : valid_month_day m d) :
    ∃ dd1 dd2 : ℕ, weekCandidate now.year m d = some ⟨now.year, m, dd1⟩ ∧
      weekCandidate (now.year + 1) m d = some ⟨now.year + 1, m, dd2⟩ ∧
      is_current_week now m d =
        some (decide (inWeekWindow now ⟨now.year, m, dd1⟩) ||
              decide (inWeekWindow now ⟨now.year + 1, m, dd2⟩)) := by
  obtain ⟨dd1, dd2, he1, he2, _⟩ := weekCandidate_gap now.year m d h
  refine ⟨dd1, dd2, he1, he2, ?_⟩
  unfold is_current_week
  rw [he1, he2]
  simp [inWeekWindow]

/-- The boolean value of `is_current_week` on inputs where it cannot raise. -/
def icw (now : PyDate) (m d : ℕ) : Bool :=
  (is_current_week now m d).getD false

lemma is_current_week_eq_icw (now : PyDate) (m d : ℕ) (h : valid_month_day m d) :
    is_current_week now m d = some (icw now m d) := by
  obtain ⟨dd1, dd2, _, _, he⟩ := is_current_week_run now m d h
  rw [icw, he]
  rfl

/-- The accumulator loop behind `str_split`: gather non-whitespace runs. -/
def splitWhiteAux : List Char → List Char → List String
  | [], acc => if acc = [] then [] else [String.mk acc.reverse]
  | c :: cs, acc =>
    if c.isWhitespace then
      (if acc = [] then splitWhiteAux cs []
       else String.mk acc.reverse :: splitWhiteAux cs [])
    else splitWhiteAux cs (c :: acc)

/-- Python `str.split()` with no arguments: split on whitespace runs,
dropping empty fragments.  Implemented over the character list so the kernel
can evaluate it. -/
def str_split (s : String) : List String :=
  splitWhiteAux s.data []

/-- The `wrap_text` accumulation loop over the word list, carrying
`current_line`. -/
def wrapAux (measure : String → ℚ) (maxWidth : ℚ) : List String → String → List String
  | [], cur => if cur = "" then [] else [cur]
  | w :: ws, cur =>
    if measure (cur ++ (if cur = "" then "" else " ") ++ w) ≤ maxWidth then
      wrapAux measure maxWidth ws (cur ++ (if cur = "" then "" else " ") ++ w)
    else if cur ≠ "" then cur :: wrapAux measure maxWidth ws w
    else w :: wrapAux measure maxWidth ws ""

/-- `wrap_text(ctx, text, max_width)`: greedy word wrap, measuring candidate
lines with `measure` (the `cairo` text extents of the current font). -/
def wrap_text (measure : String → ℚ) (text : String) (maxWidth : ℚ) : List String :=
  wrapAux measure maxWidth (str_split text) ""

lemma wrapAux_sound (measure : String → ℚ) (maxWidth : ℚ) (allW : List String) :
    ∀ (ws : List String) (cur : String), (∀ u ∈ ws, u ∈ allW) →
      (cur = "" ∨ measure cur ≤ maxWidth ∨ cur ∈ allW) →
      ∀ l ∈ wrapAux measure maxWidth ws cur, measure l ≤ maxWidth ∨ l ∈ allW := by
  intro ws
  induction ws with
  | nil =>
    intro cur _ hcur l hl
    simp only [wrapAux] at hl
    by_cases hc : cur = ""
    · rw [if_pos hc] at hl
      simp at hl
    · rw [if_neg hc] at hl
      have hlc : l = cur := List.mem_singleton.mp hl
      rcases hcur with h | h | h
      · exact absurd h hc
      · exact Or.inl (hlc ▸ h)
      · exact Or.inr (hlc ▸ h)
  | cons w ws ih =>
    intro cur hsub hcur l hl
    simp only [wrapAux] at hl
    by_cases hfit : measure (cur ++ (if cur = "" then "" else " ") ++ w) ≤ maxWidth
    · rw [if_pos hfit] at hl
      exact ih _ (fun u hu => hsub u (List.mem_cons_of_mem _ hu))
        (Or.inr (Or.inl hfit)) l hl
    · rw [if_neg hfit] at hl
      by_cases hc : cur ≠ ""
      · rw [if_pos hc] at hl
        rcases List.mem_cons.mp hl with rfl | hl'
        · rcases hcur with h | h | h
          · exact absurd h hc
          · exact Or.inl h
          · exact Or.inr h
        · exact ih _ (fun u hu => hsub u (List.mem_cons_of_mem _ hu))
            (Or.inr (Or.inr (hsub w (List.mem_cons_self w ws)))) l hl'
      · rw [if_neg hc] at hl
        rcases List.mem_cons.mp hl with rfl | hl'
        · exact Or.inr (hsub l (List.mem_cons_self l ws))
        · exact ih _ (fun u hu => hsub u (List.mem_cons_of_mem _ hu))
            (Or.inl rfl) l hl'

/-- The word-placement loop of `draw_justified_text`: each draw command is a
`(move_to x, move_to y, show_text)` triple, advancing the pen by word width
plus one inter-word gap. -/
def justifyLoop (measure : String → ℚ) : List String → ℚ → ℚ → ℚ → List (ℚ × ℚ × String)
  | [], _, _, _ => []
  | w :: ws, curX, y, gap => (curX, y, w) :: justifyLoop measure ws (curX + measure w + gap) y gap

/-- `draw_justified_text(ctx, text, x, y, target_width, is_last_line)` as the
list of emitted `(x, y, text)` draw commands. -/
def draw_justified_text (measure : String → ℚ) (text : String) (x y targetWidth : ℚ)
    (isLastLine : Bool) : List (ℚ × ℚ × String) :=
  if isLastLine then [(x + targetWidth / 2 - measure text / 2, y, text)]
  else if measure text < targetWidth * (3 / 4) then
    [(x + targetWidth / 2 - measure text / 2, y, text)]
  else if (str_split text).length ≤ 1 then
    [(x + targetWidth / 2 - measure text / 2, y, text)]
  else
    justifyLoop measure (str_split text) x y
      ((targetWidth - ((str_split text).map measure).sum) /
        (((str_split text).length - 1 : ℕ) : ℚ))

lemma justifyLoop_get (measure : String → ℚ) :
    ∀ (ws : List String) (x y gap : ℚ) (i : ℕ) (w : String), ws.get? i = some w →
      (justifyLoop measure ws x y gap).get? i =
        some (x + ((ws.take i).map measure).sum + i * gap, y, w) := by
  intro ws
  induction ws with
  | nil =>
    intro x y gap i w hw
    simp at hw
  | cons w0 ws ih =>
    intro x y gap i w hw
    match i with
    | 0 =>
      simp at hw
      subst hw
      simp [justifyLoop]
    | (j + 1) =>
      have hw' : ws.get? j = some w := hw
      have := ih (x + measure w0 + gap) y gap j w hw'
      show (justifyLoop measure ws (x + measure w0 + gap) y gap).get? j = _
      rw [this]
      congr 2
      · push_cast
        simp [List.take_cons]
        ring

lemma sum_map_take_succ {α : Type} (f : α → ℚ) :
    ∀ (ws : List α) (i : ℕ) (w : α), ws.get? i = some w →
      ((ws.take (i + 1)).map f).sum = ((ws.take i).map f).sum + f w := by
  intro ws
  induction ws with
  | nil =>
    intro i w hw
    simp at hw
  | cons w0 ws ih =>
    intro i w hw
    match i with
    | 0 =>
      simp at hw
      subst hw
      simp
    | (j + 1) =>
      have hw' : ws.get? j = some w := hw
      have := ih j w hw'
      simp only [List.take_succ_cons, List.map_cons, List.sum_cons, this]
      ring

/-- Page and layout constants of the source file. -/
def DOC_WIDTH : ℚ := 1683

def DOC_HEIGHT : ℚ := 2383

def MAX_TITLE_SIZE : ℕ := 50

def Y_MARGIN : ℚ := 330

def BOX_MARGIN : ℚ := 6

def BOTTOM_MARGIN : ℚ := 120

def MIN_AGE : ℤ := 80

def MAX_AGE : ℤ := 100

def NUM_COLUMNS : ℕ := 52

/-- An RGB fill colour, one rational per channel. -/
abbrev Fill := ℚ × ℚ × ℚ

def BIRTHDAY_COLOUR : Fill := (1/2, 1/2, 1/2)

def NEWYEAR_COLOUR : Fill := (4/5, 4/5, 4/5)

def DARKENED_COLOUR_DELTA : Fill := (-(2/5), -(2/5), -(2/5))

/-- `get_darkened_fill`: channel-wise sum of the fill with the (negative)
darkening delta, with no clamping. -/
def get_darkened_fill (fill : Fill) : Fill :=
  (fill.1 + DARKENED_COLOUR_DELTA.1,
   fill.2.1 + DARKENED_COLOUR_DELTA.2.1,
   fill.2.2 + DARKENED_COLOUR_DELTA.2.2)

/-- The fill colour of one cell, as computed by the body of the `draw_row`
loop: birthday week beats new-year week beats white, then the darkening
transform is layered on iff `darken_until_date` is set and the cell date is
before it. -/
def cellFill (birthdate : PyDate) (darkenUntil : Option PyDate) (date : PyDate) : Option Fill :=
  (is_current_week date birthdate.month birthdate.day).bind fun isB =>
    (if isB then some BIRTHDAY_COLOUR
     else (is_current_week date 1 1).map fun isN =>
       if isN then NEWYEAR_COLOUR else (1, 1, 1)).map fun fill =>
      match darkenUntil with
      | some du => if is_future date du then get_darkened_fill fill else fill
      | none => fill

/-- `draw_row`: one row of `NUM_COLUMNS` squares; each iteration advances the
cell date by one week.  The result records, per cell, the represented week
start date and the fill handed to `draw_square`. -/
def draw_row (birthdate : PyDate) (darkenUntil : Option PyDate) :
    PyDate → ℕ → Option (List (PyDate × Fill))
  | _, 0 => some []
  | date, n + 1 =>
    (cellFill birthdate darkenUntil date).bind fun f =>
      (draw_row birthdate darkenUntil (addDays date 7) n).map fun rest =>
        (date, f) :: rest

/-- The row loop of `draw_grid`: each row starts 52 weeks after the previous
one. -/
def draw_grid_cells (birthdate : PyDate) (darkenUntil : Option PyDate) :
    PyDate → ℕ → Option (List (List (PyDate × Fill)))
  | _, 0 => some []
  | date, n + 1 =>
    (draw_row birthdate darkenUntil date NUM_COLUMNS).bind fun row =>
      (draw_grid_cells birthdate darkenUntil (addDays date 364) n).map fun rest =>
        row :: rest

/-- The `box_size` computation at the top of `draw_grid`:
`(DOC_HEIGHT - Y_MARGIN - BOTTOM_MARGIN) / num_rows - BOX_MARGIN`.
No positivity check follows it in the source. -/
def box_size (numRows : ℕ) : ℚ :=
  (DOC_HEIGHT - Y_MARGIN - BOTTOM_MARGIN) / numRows - BOX_MARGIN

/-- `draw_grid`: computes the box size, then draws `numRows` rows of cells. -/
def draw_grid (birthdate : PyDate) (darkenUntil : Option PyDate) (date : PyDate)
    (numRows : ℕ) : Option (ℚ × List (List (PyDate × Fill))) :=
  (draw_grid_cells birthdate darkenUntil date numRows).map fun g => (box_size numRows, g)

/-- Cell lookup in a drawn grid: row `r`, column `c`. -/
def cellAt (g : List (List (PyDate × Fill))) (r c : ℕ) : Option (PyDate × Fill) :=
  (g.get? r).bind fun row => row.get? c

/-- The pure value `cellFill` computes whenever the two `is_current_week`
calls cannot raise. -/
def cellFillPure (birthdate : PyDate) (darkenUntil : Option PyDate) (date : PyDate) : Fill :=
  match darkenUntil with
  | some du =>
    if is_future date du then
      get_darkened_fill (if icw date birthdate.month birthdate.day then BIRTHDAY_COLOUR
        else if icw date 1 1 then NEWYEAR_COLOUR else (1, 1, 1))
    else
      (if icw date birthdate.month birthdate.day then BIRTHDAY_COLOUR
        else if icw date 1 1 then NEWYEAR_COLOUR else (1, 1, 1))
  | none =>
    (if icw date birthdate.month birthdate.day then BIRTHDAY_COLOUR
      else if icw date 1 1 then NEWYEAR_COLOUR else (1, 1, 1))

lemma valid_month_day_newyear : valid_month_day 1 1 := by
  decide

lemma cellFill_eq_pure (birthdate : PyDate) (darkenUntil : Option PyDate) (date : PyDate)
    (hb : valid_month_day birthdate.month birthdate.day) :
    cellFill birthdate darkenUntil date = some (cellFillPure birthdate darkenUntil date) := by
  have h1 := is_current_week_eq_icw date birthdate.month birthdate.day hb
  have h2 := is_current_week_eq_icw date 1 1 valid_month_day_newyear
  unfold cellFill cellFillPure
  rw [h1, h2]
  cases hicwb : icw date birthdate.month birthdate.day <;>
    cases darkenUntil <;>
    simp [hicwb]

lemma draw_row_spec (birthdate : PyDate) (darkenUntil : Option PyDate)
    (hb : valid_month_day birthdate.month birthdate.day) :
    ∀ (n : ℕ) (date : PyDate), PyDate.valid date →
      ∃ row, draw_row birthdate darkenUntil date n = some row ∧ row.length = n ∧
        ∀ (c : ℕ) (w : PyDate × Fill), row.get? c = some w →
          w = (addDays date (7 * c), cellFillPure birthdate darkenUntil (addDays date (7 * c))) := by
  intro n
  induction n with
  | zero =>
    intro date _
    refine ⟨[], rfl, rfl, ?_⟩
    intro c w hw
    simp at hw
  | succ k ih =>
    intro date hd
    have hd7 : PyDate.valid (addDays date 7) := (toOrdinal_addDays date hd 7).1
    obtain ⟨row', he', hlen', hcell'⟩ := ih (addDays date 7) hd7
    refine ⟨(date, cellFillPure birthdate darkenUntil date) :: row', ?_, by simp [hlen'], ?_⟩
    · show (cellFill birthdate darkenUntil date).bind _ = _
      rw [cellFill_eq_pure birthdate darkenUntil date hb]
      simp [he']
    · intro c w hw
      match c with
      | 0 =>
        simp at hw
        subst hw
        simp [addDays]
      | (j + 1) =>
        have hw' : row'.get? j = some w := hw
        have := hcell' j w hw'
        rw [this, addDays_addDays]
        have harith : 7 + 7 * j = 7 * (j + 1) := by ring
        rw [harith]

lemma draw_grid_cells_spec (birthdate : PyDate) (darkenUntil : Option PyDate)
    (hb : valid_month_day birthdate.month birthdate.day) :
    ∀ (rows : ℕ) (start : PyDate), PyDate.valid start →
      ∃ g, draw_grid_cells birthdate darkenUntil start rows = some g ∧ g.length = rows ∧
        ∀ (r : ℕ) (row : List (PyDate × Fill)), g.get? r = some row →
          row.length = NUM_COLUMNS ∧
          ∀ (c : ℕ) (w : PyDate × Fill), row.get? c = some w →
            w = (addDays start (7 * (52 * r + c)),
                 cellFillPure birthdate darkenUntil (addDays start (7 * (52 * r + c)))) := by
  intro rows
  induction rows with
  | zero =>
    intro start _
    refine ⟨[], rfl, rfl, ?_⟩
    intro r row hr
    simp at hr
  | succ k ih =>
    intro start hs
    have hs364 : PyDate.valid (addDays start 364) := (toOrdinal_addDays start hs 364).1
    obtain ⟨row, herow, hlenrow, hcellrow⟩ :=
      draw_row_spec birthdate darkenUntil hb NUM_COLUMNS start hs
    obtain ⟨g', heg', hleng', hrow'⟩ := ih (addDays start 364) hs364
    refine ⟨row :: g', ?_, by simp [hleng'], ?_⟩
    · show (draw_row birthdate darkenUntil start NUM_COLUMNS).bind _ = _
      rw [herow]
      simp [heg']
    · intro r rw0 hr
      match r with
      | 0 =>
        simp at hr
        subst hr
        refine ⟨hlenrow, ?_⟩
        intro c w hw
        have := hcellrow c w hw
        rw [this]
        have harith : 7 * c = 7 * (52 * 0 + c) := by ring
        rw [← harith]
      | (j + 1) =>
        have hr' : g'.get? j = some rw0 := hr
        obtain ⟨hl, hc⟩ := hrow' j rw0 hr'
        refine ⟨hl, ?_⟩
        intro c w hw
        have := hc c w hw
        rw [this, addDays_addDays]
        have harith : 364 + 7 * (52 * j + c) = 7 * (52 * (j + 1) + c) := by ring
        rw [harith]

lemma cellFillPure_cases (birthdate : PyDate) (darkenUntil : Option PyDate) (date : PyDate) :
    cellFillPure birthdate darkenUntil date = (1, 1, 1) ∨
    cellFillPure birthdate darkenUntil date = BIRTHDAY_COLOUR ∨
    cellFillPure birthdate darkenUntil date = NEWYEAR_COLOUR ∨
    cellFillPure birthdate darkenUntil date = get_darkened_fill (1, 1, 1) ∨
    cellFillPure birthdate darkenUntil date = get_darkened_fill BIRTHDAY_COLOUR ∨
    cellFillPure birthdate darkenUntil date = get_darkened_fill NEWYEAR_COLOUR := by
  cases darkenUntil with
  | none =>
    unfold cellFillPure
    dsimp only
    split_ifs <;> tauto
  | some du =>
    unfold cellFillPure
    dsimp only
    split_ifs <;> tauto

lemma cellFillPure_bounds (birthdate : PyDate) (darkenUntil : Option PyDate) (date : PyDate) :
    ((1 : ℚ) / 10 ≤ (cellFillPure birthdate darkenUntil date).1 ∧
      (cellFillPure birthdate darkenUntil date).1 ≤ 1) ∧
    ((1 : ℚ) / 10 ≤ (cellFillPure birthdate darkenUntil date).2.1 ∧
      (cellFillPure birthdate darkenUntil date).2.1 ≤ 1) ∧
    ((1 : ℚ) / 10 ≤ (cellFillPure birthdate darkenUntil date).2.2 ∧
      (cellFillPure birthdate darkenUntil date).2.2 ≤ 1) := by
  rcases cellFillPure_cases birthdate darkenUntil date with h | h | h | h | h | h <;>
    rw [h] <;>
    norm_num [BIRTHDAY_COLOUR, NEWYEAR_COLOUR, get_darkened_fill, DARKENED_COLOUR_DELTA]

lemma get_darkened_fill_ne (f : Fill) : get_darkened_fill f ≠ f := by
  intro h
  have h1 : f.1 + DARKENED_COLOUR_DELTA.1 = f.1 := congrArg Prod.fst h
  norm_num [DARKENED_COLOUR_DELTA] at h1

lemma cellFillPure_darken_iff (birthdate : PyDate) (darkenUntil : Option PyDate) (date : PyDate) :
    cellFillPure birthdate darkenUntil date ≠ cellFillPure birthdate none date ↔
      (∃ du, darkenUntil = some du ∧ toOrdinal date < toOrdinal du) := by
  cases darkenUntil with
  | none =>
    simp
  | some du =>
    by_cases hf : is_future date du = true
    · have hlt : toOrdinal date < toOrdinal du := of_decide_eq_true hf
      constructor
      · intro _
        exact ⟨du, rfl, hlt⟩
      · intro _
        show cellFillPure birthdate (some du) date ≠ cellFillPure birthdate none date
        unfold cellFillPure
        dsimp only
        rw [if_pos hf]
        exact get_darkened_fill_ne _
    · have hnlt : ¬ toOrdinal date < toOrdinal du := fun hl => hf (decide_eq_true hl)
      constructor
      · intro hne
        exfalso
        apply hne
        show cellFillPure birthdate (some du) date = cellFillPure birthdate none date
        unfold cellFillPure
        dsimp only
        rw [if_neg hf]
      · rintro ⟨du', hdu', hlt⟩
        exact absurd hlt (by injection hdu' with h; rw [← h]; exact hnlt)

lemma valid_month_day_of_valid (d : PyDate) (h : PyDate.valid d) :
    valid_month_day d.month d.day :=
  ⟨h.1, h.2.1, h.2.2.1, le_trans h.2.2.2 (daysInMonth_le_max d.year d.month)⟩

/-- The distinct `ValueError`s `gen_calendar` can raise before drawing. -/
inductive CalendarError where
  | titleTooLong : CalendarError
  | invalidAge : CalendarError
  | dateError : CalendarError
deriving DecidableEq

/-- `gen_calendar`: validates the title length, then the age bounds, and only
then builds the grid (the drawing).  An `Except.error` carries no drawing
output at all. -/
def gen_calendar (birthdate : PyDate) (hb : PyDate.valid birthdate) (title : String) (age : ℤ)
    (darkenUntil : Option PyDate) : Except CalendarError (ℚ × List (List (PyDate × Fill))) :=
  if title.length > MAX_TITLE_SIZE then Except.error CalendarError.titleTooLong
  else if age < MIN_AGE ∨ age > MAX_AGE then Except.error CalendarError.invalidAge
  else
    match draw_grid birthdate darkenUntil (back_up_to_sunday birthdate hb) age.toNat with
    | some res => Except.ok res
    | none => Except.error CalendarError.dateError

lemma box_size_pos (n : ℕ) (h80 : 80 ≤ n) (h100 : n ≤ 100) : 0 < box_size n := by
  have hn0 : (0 : ℚ) < n := by
    have : (80 : ℚ) ≤ n := by exact_mod_cast h80
    linarith
  have hn100 : (n : ℚ) ≤ 100 := by exact_mod_cast h100
  unfold box_size DOC_HEIGHT Y_MARGIN BOTTOM_MARGIN BOX_MARGIN
  have h6 : (6 : ℚ) * n < 1933 := by linarith
  have : (6 : ℚ) < (2383 - 330 - 120) / n := by
    rw [lt_div_iff₀ hn0]
    linarith
  linarith

lemma draw_grid_cellAt (birthdate : PyDate) (darkenUntil : Option PyDate)
    (hb : valid_month_day birthdate.month birthdate.day)
    (rows : ℕ) (start : PyDate) (hstart : PyDate.valid start)
    (r c : ℕ) (hr : r < rows) (hc : c < NUM_COLUMNS) :
    ∃ g, draw_grid_cells birthdate darkenUntil start rows = some g ∧
      cellAt g r c = some (addDays start (7 * (52 * r + c)),
        cellFillPure birthdate darkenUntil (addDays start (7 * (52 * r + c)))) := by
  obtain ⟨g, heg, hlen, hcell⟩ := draw_grid_cells_spec birthdate darkenUntil hb rows start hstart
  refine ⟨g, heg, ?_⟩
  have hr' : r < g.length := by omega
  obtain ⟨row, hrowe⟩ : ∃ row, g.get? r = some row :=
    ⟨g.get ⟨r, hr'⟩, List.get?_eq_get hr'⟩
  obtain ⟨hrl, hcl⟩ := hcell r row hrowe
  have hc' : c < row.length := by omega
  obtain ⟨w, hwe⟩ : ∃ w, row.get? c = some w :=
    ⟨row.get ⟨c, hc'⟩, List.get?_eq_get hc'⟩
  have hweq := hcl c w hwe
  unfold cellAt
  rw [hrowe]
  show row.get? c = some _
  rw [hwe, hweq]

lemma cellAt_unique (birthdate : PyDate) (darkenUntil : Option PyDate)
    (hb : valid_month_day birthdate.month birthdate.day)
    (rows : ℕ) (start : PyDate) (hstart : PyDate.valid start)
    (g : List (List (PyDate × Fill)))
    (hg : draw_grid_cells birthdate darkenUntil start rows = some g)
    (r c : ℕ) (w : PyDate × Fill) (hw : cellAt g r c = some w) :
    w = (addDays start (7 * (52 * r + c)),
         cellFillPure birthdate darkenUntil (addDays start (7 * (52 * r + c)))) := by
  obtain ⟨g', heg', _, hcell'⟩ := draw_grid_cells_spec birthdate darkenUntil hb rows start hstart
  have hgg : g' = g := by
    rw [hg] at heg'
    injection heg' with h
    exact h.symm
  subst hgg
  unfold cellAt at hw
  cases hgr : g'.get? r with
  | none =>
    rw [hgr] at hw
    simp at hw
  | some row =>
    rw [hgr] at hw
    exact (hcell' r row hgr).2 c w hw

/-- C1: in the grid drawn by `draw_row`/`draw_grid`, a cell is rendered
darkened, meaning its fill differs from the classification fill the same cell
gets with no darken-until date, exactly when a darken-until date is supplied
and the cell's represented week-start date is strictly before it.  In
particular, with `darken_until = None` every cell keeps its classification
fill, whatever its date. -/
theorem darkening_iff_cell_before_darken_until (birthdate start : PyDate)
    (darkenUntil : Option PyDate) (rows r c : ℕ)
    (hb : valid_month_day birthdate.month birthdate.day)
    (hstart : PyDate.valid start) (hr : r < rows) (hc : c < NUM_COLUMNS) :
    ∃ g g0 dt f f0,
      draw_grid_cells birthdate darkenUntil start rows = some g ∧
      draw_grid_cells birthdate none start rows = some g0 ∧
      cellAt g r c = some (dt, f) ∧
      cellAt g0 r c = some (dt, f0) ∧
      (f ≠ f0 ↔ ∃ du, darkenUntil = some du ∧ toOrdinal dt < toOrdinal du) := by
  obtain ⟨g, heg, hcg⟩ :=
    draw_grid_cellAt birthdate darkenUntil hb rows start hstart r c hr hc
  obtain ⟨g0, heg0, hcg0⟩ :=
    draw_grid_cellAt birthdate none hb rows start hstart r c hr hc
  exact ⟨g, g0, addDays start (7 * (52 * r + c)),
    cellFillPure birthdate darkenUntil (addDays start (7 * (52 * r + c))),
    cellFillPure birthdate none (addDays start (7 * (52 * r + c))),
    heg, heg0, hcg, hcg0,
    cellFillPure_darken_iff birthdate darkenUntil (addDays start (7 * (52 * r + c)))⟩

lemma witness_birth_valid : PyDate.valid (⟨1990, 6, 15⟩ : PyDate) := by
  decide

lemma witness_start_valid : PyDate.valid (⟨1990, 6, 10⟩ : PyDate) := by
  decide

theorem darkening_iff_witness :
    valid_month_day (PyDate.mk 1990 6 15).month (PyDate.mk 1990 6 15).day ∧
    PyDate.valid (⟨1990, 6, 10⟩ : PyDate) ∧ 0 < 80 ∧ 0 < NUM_COLUMNS ∧
    (∃ g g0 dt f f0,
      draw_grid_cells ⟨1990, 6, 15⟩ (some ⟨2020, 1, 5⟩) ⟨1990, 6, 10⟩ 80 = some g ∧
      draw_grid_cells ⟨1990, 6, 15⟩ none ⟨1990, 6, 10⟩ 80 = some g0 ∧
      cellAt g 0 0 = some (dt, f) ∧
      cellAt g0 0 0 = some (dt, f0) ∧
      (f ≠ f0 ↔ ∃ du, (some (⟨2020, 1, 5⟩ : PyDate) : Option PyDate) = some du ∧
        toOrdinal dt < toOrdinal du)) :=
  ⟨by decide, witness_start_valid, by norm_num, by decide,
    darkening_iff_cell_before_darken_until ⟨1990, 6, 15⟩ ⟨1990, 6, 10⟩
      (some ⟨2020, 1, 5⟩) 80 0 0 (by decide) witness_start_valid (by norm_num) (by decide)⟩

/-- C2: when `is_current_week` is asked about (Feb, 29) and a candidate year
is not a leap year, the loop body substitutes Feb 28 of that year instead of
failing; concretely, `is_current_week(datetime(2023, 2, 27), 2, 29)` is true
and `is_current_week(datetime(2023, 3, 1), 2, 29)` is false. -/
theorem leap_day_substitution :
    (∀ y : ℤ, isLeap y = false → weekCandidate y 2 29 = some ⟨y, 2, 28⟩) ∧
    is_current_week ⟨2023, 2, 27⟩ 2 29 = some true ∧
    is_current_week ⟨2023, 3, 1⟩ 2 29 = some false := by
  refine ⟨?_, by decide, by decide⟩
  intro y hy
  have hnv : ¬ PyDate.valid ⟨y, 2, 29⟩ := by
    intro hv
    have h29 := hv.2.2.2
    simp only [daysInMonth, if_pos rfl] at h29
    rw [hy] at h29
    simp at h29
  have hv28 : PyDate.valid ⟨y, 2, 28⟩ :=
    ⟨by norm_num, by norm_num, by norm_num, daysInMonth_two_ge y⟩
  unfold weekCandidate mkDate
  simp [hnv, hv28]

theorem leap_day_substitution_witness :
    isLeap (2023 : ℤ) = false ∧ weekCandidate 2023 2 29 = some ⟨2023, 2, 28⟩ :=
  ⟨by decide, leap_day_substitution.1 2023 (by decide)⟩

/-- C3: on a valid (month, day) pair, `is_current_week` returns (without
raising) the disjunction of the two window tests for the candidate dates of
years `now.year` and `now.year + 1`, i.e. it is true iff at least one
candidate falls in `[now, now + 7 days)`; and the two candidates are too far
apart for both to be in the window at once. -/
theorem is_current_week_window (now : PyDate) (m d : ℕ) (h : valid_month_day m d) :
    ∃ dt1 dt2,
      weekCandidate now.year m d = some dt1 ∧
      weekCandidate (now.year + 1) m d = some dt2 ∧
      is_current_week now m d =
        some (decide (inWeekWindow now dt1) || decide (inWeekWindow now dt2)) ∧
      ¬ (inWeekWindow now dt1 ∧ inWeekWindow now dt2) := by
  obtain ⟨dd1, dd2, he1, he2, hgap⟩ := weekCandidate_gap now.year m d h
  refine ⟨⟨now.year, m, dd1⟩, ⟨now.year + 1, m, dd2⟩, he1, he2, ?_, ?_⟩
  · unfold is_current_week
    rw [he1, he2]
    simp [inWeekWindow]
  · intro hboth
    have h1 := hboth.1
    have h2 := hboth.2
    unfold inWeekWindow at h1 h2
    omega

theorem is_current_week_window_witness :
    valid_month_day 2 29 ∧
    (∃ dt1 dt2,
      weekCandidate (PyDate.mk 2023 2 27).year 2 29 = some dt1 ∧
      weekCandidate ((PyDate.mk 2023 2 27).year + 1) 2 29 = some dt2 ∧
      is_current_week ⟨2023, 2, 27⟩ 2 29 =
        some (decide (inWeekWindow ⟨2023, 2, 27⟩ dt1) ||
              decide (inWeekWindow ⟨2023, 2, 27⟩ dt2)) ∧
      ¬ (inWeekWindow ⟨2023, 2, 27⟩ dt1 ∧ inWeekWindow ⟨2023, 2, 27⟩ dt2)) :=
  ⟨by decide, is_current_week_window ⟨2023, 2, 27⟩ 2 29 (by decide)⟩

/-- C4: for every valid date, `back_up_to_sunday` terminates (it is a total
function here) and returns a valid date on the Sunday anchor (weekday 6), at
most the input, and less than seven days before it. -/
theorem back_up_to_sunday_contract (d : PyDate) (h : PyDate.valid d) :
    weekday (back_up_to_sunday d h) = 6 ∧
    PyDate.valid (back_up_to_sunday d h) ∧
    toOrdinal (back_up_to_sunday d h) ≤ toOrdinal d ∧
    0 ≤ toOrdinal d - toOrdinal (back_up_to_sunday d h) ∧
    toOrdinal d - toOrdinal (back_up_to_sunday d h) < 7 := by
  have hmain := back_up_to_sunday_aux (toOrdinal d % 7).toNat d h rfl
  exact ⟨hmain.1, hmain.2.1, hmain.2.2.1, by have := hmain.2.2.1; omega, hmain.2.2.2⟩

lemma witness_c4_valid : PyDate.valid (⟨2023, 3, 1⟩ : PyDate) := by
  decide

theorem back_up_to_sunday_contract_witness :
    PyDate.valid (⟨2023, 3, 1⟩ : PyDate) ∧
    (weekday (back_up_to_sunday ⟨2023, 3, 1⟩ witness_c4_valid) = 6 ∧
     PyDate.valid (back_up_to_sunday ⟨2023, 3, 1⟩ witness_c4_valid) ∧
     toOrdinal (back_up_to_sunday ⟨2023, 3, 1⟩ witness_c4_valid) ≤ toOrdinal ⟨2023, 3, 1⟩ ∧
     0 ≤ toOrdinal ⟨2023, 3, 1⟩ - toOrdinal (back_up_to_sunday ⟨2023, 3, 1⟩ witness_c4_valid) ∧
     toOrdinal ⟨2023, 3, 1⟩ - toOrdinal (back_up_to_sunday ⟨2023, 3, 1⟩ witness_c4_valid) < 7) :=
  ⟨witness_c4_valid, back_up_to_sunday_contract ⟨2023, 3, 1⟩ witness_c4_valid⟩

/-- C5: `gen_calendar` validates before drawing: a title longer than the
50-character maximum yields the title-specific error, an age outside
[80, 100] (with an acceptable title) yields the age-specific error, the two
errors are distinct, and an error result carries no drawing output. -/
theorem gen_calendar_validation (birthdate : PyDate) (hb : PyDate.valid birthdate)
    (title : String) (age : ℤ) (darkenUntil : Option PyDate) :
    (title.length > MAX_TITLE_SIZE →
      gen_calendar birthdate hb title age darkenUntil =
        Except.error CalendarError.titleTooLong) ∧
    (title.length ≤ MAX_TITLE_SIZE → (age < MIN_AGE ∨ age > MAX_AGE) →
      gen_calendar birthdate hb title age darkenUntil =
        Except.error CalendarError.invalidAge) ∧
    CalendarError.titleTooLong ≠ CalendarError.invalidAge := by
  refine ⟨?_, ?_, by decide⟩
  · intro ht
    unfold gen_calendar
    rw [if_pos ht]
  · intro ht ha
    unfold gen_calendar
    rw [if_neg (by omega : ¬ title.length > MAX_TITLE_SIZE), if_pos ha]

theorem gen_calendar_validation_witness :
    (("aaaaaaaaaaaaaaaaaaaaaaaaaaaaaaaaaaaaaaaaaaaaaaaaaaa" : String).length > MAX_TITLE_SIZE ∧
      gen_calendar ⟨1990, 6, 15⟩ witness_birth_valid
        "aaaaaaaaaaaaaaaaaaaaaaaaaaaaaaaaaaaaaaaaaaaaaaaaaaa" 90 none =
        Except.error CalendarError.titleTooLong) ∧
    (("T" : String).length ≤ MAX_TITLE_SIZE ∧ ((79 : ℤ) < MIN_AGE ∨ (79 : ℤ) > MAX_AGE) ∧
      gen_calendar ⟨1990, 6, 15⟩ witness_birth_valid "T" 79 none =
        Except.error CalendarError.invalidAge) :=
  ⟨⟨by decide,
    (gen_calendar_validation ⟨1990, 6, 15⟩ witness_birth_valid
      "aaaaaaaaaaaaaaaaaaaaaaaaaaaaaaaaaaaaaaaaaaaaaaaaaaa" 90 none).1 (by decide)⟩,
   ⟨by decide, Or.inl (by decide),
    (gen_calendar_validation ⟨1990, 6, 15⟩ witness_birth_valid "T" 79 none).2.1
      (by decide) (Or.inl (by decide))⟩⟩

/-- C6 counterexample: with 2000 rows the computed box size is negative, yet
`draw_grid` raises nothing and still produces its full drawing output (2000
rows of cells); the source contains no layout-infeasibility check. -/
theorem draw_grid_no_infeasibility_check :
    box_size 2000 < 0 ∧
    draw_grid (⟨1990, 6, 15⟩ : PyDate) none (⟨1990, 6, 10⟩ : PyDate) 2000 ≠ none ∧
    Option.map (fun p => p.2.length)
      (draw_grid (⟨1990, 6, 15⟩ : PyDate) none (⟨1990, 6, 10⟩ : PyDate) 2000) = some 2000 := by
  obtain ⟨g, heg, hlen, _⟩ :=
    draw_grid_cells_spec ⟨1990, 6, 15⟩ none (by decide) 2000 ⟨1990, 6, 10⟩ (by decide)
  refine ⟨?_, ?_, ?_⟩
  · norm_num [box_size, DOC_HEIGHT, Y_MARGIN, BOTTOM_MARGIN, BOX_MARGIN]
  · simp [draw_grid, heg]
  · simp [draw_grid, heg, hlen]

/-- C6 amended: the box size is computed by the stated formula, and for every
row count in the validated range [80, 100] it is strictly positive, so
`draw_grid` simply returns its output; the code never checks the sign and has
no infeasibility error to raise. -/
theorem box_size_formula_and_positivity (numRows : ℕ) (h80 : 80 ≤ numRows)
    (h100 : numRows ≤ 100) :
    box_size numRows = (DOC_HEIGHT - Y_MARGIN - BOTTOM_MARGIN) / numRows - BOX_MARGIN ∧
    0 < box_size numRows ∧
    (∀ (birthdate start : PyDate) (darkenUntil : Option PyDate),
      valid_month_day birthdate.month birthdate.day → PyDate.valid start →
      ∃ g, draw_grid birthdate darkenUntil start numRows = some (box_size numRows, g)) := by
  refine ⟨rfl, box_size_pos numRows h80 h100, ?_⟩
  intro birthdate start darkenUntil hb hstart
  obtain ⟨g, heg, _, _⟩ := draw_grid_cells_spec birthdate darkenUntil hb numRows start hstart
  exact ⟨g, by simp [draw_grid, heg]⟩

theorem box_size_positivity_witness :
    80 ≤ 90 ∧ 90 ≤ 100 ∧
    (box_size 90 = (DOC_HEIGHT - Y_MARGIN - BOTTOM_MARGIN) / (90 : ℕ) - BOX_MARGIN ∧
     0 < box_size 90 ∧
     (∀ (birthdate start : PyDate) (darkenUntil : Option PyDate),
       valid_month_day birthdate.month birthdate.day → PyDate.valid start →
       ∃ g, draw_grid birthdate darkenUntil start 90 = some (box_size 90, g))) :=
  ⟨by norm_num, by norm_num,
    box_size_formula_and_positivity 90 (by norm_num) (by norm_num)⟩

/-- C7: every line produced by the greedy wrap either measures at most the
width bound, or is one of the words of the input (placed alone, never split)
and that word itself measures more than the bound. -/
theorem wrap_text_line_widths (measure : String → ℚ) (text : String) (maxWidth : ℚ)
    (line : String) (hmem : line ∈ wrap_text measure text maxWidth) :
    measure line ≤ maxWidth ∨ (line ∈ str_split text ∧ maxWidth < measure line) := by
  have h := wrapAux_sound measure maxWidth (str_split text) (str_split text) ""
    (fun u hu => hu) (Or.inl rfl) line hmem
  by_cases hle : measure line ≤ maxWidth
  · exact Or.inl hle
  · rcases h with h | h
    · exact Or.inl h
    · exact Or.inr ⟨h, not_le.mp hle⟩

theorem wrap_text_line_widths_witness :
    ("hello world" ∈ wrap_text (fun s => (s.length : ℚ)) "hello world foo" 11) ∧
    ((fun s : String => (s.length : ℚ)) "hello world" ≤ 11 ∨
      ("hello world" ∈ str_split "hello world foo" ∧
        (11 : ℚ) < (fun s : String => (s.length : ℚ)) "hello world")) :=
  ⟨by decide,
    wrap_text_line_widths (fun s => (s.length : ℚ)) "hello world foo" 11
      "hello world" (by decide)⟩

/-- C8: `draw_justified_text` centers the line (single command whose
bounding-box midpoint is `x + target_width / 2`) when the line is the last
line, has fewer than two words, or measures below 75 percent of the target
width; otherwise it emits one command per word, each origin advanced by word
width plus one even share of the slack, and the last word's right edge lands
exactly on `x + target_width`. -/
theorem draw_justified_text_contract (measure : String → ℚ) (text : String)
    (x y targetWidth : ℚ) (isLastLine : Bool) :
    ((isLastLine = true ∨ measure text < targetWidth * (3 / 4) ∨
        (str_split text).length ≤ 1) →
      ∃ p, draw_justified_text measure text x y targetWidth isLastLine = [(p, y, text)] ∧
        p + measure text / 2 = x + targetWidth / 2) ∧
    (isLastLine = false → targetWidth * (3 / 4) ≤ measure text →
      2 ≤ (str_split text).length →
      ((∀ (i : ℕ) (w : String), (str_split text).get? i = some w →
        (draw_justified_text measure text x y targetWidth isLastLine).get? i =
          some (x + (((str_split text).take i).map measure).sum +
            i * ((targetWidth - ((str_split text).map measure).sum) /
              (((str_split text).length - 1 : ℕ) : ℚ)), y, w)) ∧
      (∀ (w : String), (str_split text).get? ((str_split text).length - 1) = some w →
        ∃ p, (draw_justified_text measure text x y targetWidth isLastLine).get?
            ((str_split text).length - 1) = some (p, y, w) ∧
          p + measure w = x + targetWidth))) := by
  constructor
  · intro hcond
    refine ⟨x + targetWidth / 2 - measure text / 2, ?_, by ring⟩
    unfold draw_justified_text
    by_cases hl : isLastLine
    · simp [hl]
    · rcases hcond with h | h | h
      · exact absurd h hl
      · simp [hl, h]
      · by_cases h2 : measure text < targetWidth * (3 / 4)
        · simp [hl, h2]
        · simp [hl, h2, h]
  · intro hl hge hn
    have hnot1 : ¬ (str_split text).length ≤ 1 := by omega
    have hnotlt : ¬ measure text < targetWidth * (3 / 4) := not_lt.mpr hge
    have hout : draw_justified_text measure text x y targetWidth isLastLine =
        justifyLoop measure (str_split text) x y
          ((targetWidth - ((str_split text).map measure).sum) /
            (((str_split text).length - 1 : ℕ) : ℚ)) := by
      unfold draw_justified_text
      simp [hl, hnotlt, hnot1]
    constructor
    · intro i w hw
      rw [hout]
      exact justifyLoop_get measure (str_split text) x y _ i w hw
    · intro w hw
      rw [hout]
      refine ⟨_, justifyLoop_get measure (str_split text) x y _ _ w hw, ?_⟩
      have hsum := sum_map_take_succ measure (str_split text)
        ((str_split text).length - 1) w hw
      have hn1 : (str_split text).length - 1 + 1 = (str_split text).length := by omega
      rw [hn1, List.take_length] at hsum
      have hne : (((str_split text).length - 1 : ℕ) : ℚ) ≠ 0 :=
        Nat.cast_ne_zero.mpr (by omega)
      have hgapmul : (((str_split text).length - 1 : ℕ) : ℚ) *
          ((targetWidth - ((str_split text).map measure).sum) /
            (((str_split text).length - 1 : ℕ) : ℚ)) =
          targetWidth - ((str_split text).map measure).sum := by
        rw [mul_comm]
        exact div_mul_cancel₀ _ hne
      linarith [hsum, hgapmul]

theorem draw_justified_text_contract_witness :
    ((false : Bool) = false) ∧
    ((6 : ℚ) * (3 / 4) ≤ (fun s : String => (s.length : ℚ)) "aa bb") ∧
    2 ≤ (str_split "aa bb").length ∧
    (str_split "aa bb").get? ((str_split "aa bb").length - 1) = some "bb" ∧
    (∃ p, (draw_justified_text (fun s : String => (s.length : ℚ)) "aa bb" 0 0 6 false).get?
        ((str_split "aa bb").length - 1) = some (p, 0, "bb") ∧
      p + (fun s : String => (s.length : ℚ)) "bb" = 0 + 6) :=
  ⟨rfl, by norm_num [String.length], by decide, by decide,
    ((draw_justified_text_contract (fun s : String => (s.length : ℚ)) "aa bb" 0 0 6 false).2
      rfl (by norm_num [String.length]) (by decide)).2 "bb" (by decide)⟩

/-- C9: cell (r, c) of the drawn grid represents the week starting
`start_date + (52 r + c)` weeks, its ordinal is affine in `52 r + c`, and
cell dates are strictly increasing along a row and from the end of one row to
the start of the next. -/
theorem grid_dates_affine_monotone (birthdate start : PyDate)
    (darkenUntil : Option PyDate) (rows : ℕ)
    (hb : valid_month_day birthdate.month birthdate.day)
    (hstart : PyDate.valid start) :
    ∃ g, draw_grid_cells birthdate darkenUntil start rows = some g ∧
      (∀ r c, r < rows → c < NUM_COLUMNS → ∃ f,
        cellAt g r c = some (addDays start (7 * (52 * r + c)), f) ∧
        toOrdinal (addDays start (7 * (52 * r + c))) =
          toOrdinal start + (7 * (52 * r + c) : ℕ)) ∧
      (∀ r c d1 f1 d2 f2, r < rows → c + 1 < NUM_COLUMNS →
        cellAt g r c = some (d1, f1) → cellAt g r (c + 1) = some (d2, f2) →
        toOrdinal d1 < toOrdinal d2) ∧
      (∀ r d1 f1 d2 f2, r + 1 < rows →
        cellAt g r 51 = some (d1, f1) → cellAt g (r + 1) 0 = some (d2, f2) →
        toOrdinal d1 < toOrdinal d2) := by
  obtain ⟨g, heg, hlen, hcell⟩ :=
    draw_grid_cells_spec birthdate darkenUntil hb rows start hstart
  refine ⟨g, heg, ?_, ?_, ?_⟩
  · intro r c hr hc
    obtain ⟨g', heg', hcg⟩ :=
      draw_grid_cellAt birthdate darkenUntil hb rows start hstart r c hr hc
    have hgg : g' = g := by
      rw [heg] at heg'
      injection heg' with h
      exact h.symm
    subst hgg
    exact ⟨cellFillPure birthdate darkenUntil (addDays start (7 * (52 * r + c))), hcg,
      (toOrdinal_addDays start hstart (7 * (52 * r + c))).2⟩
  · intro r c d1 f1 d2 f2 hr hc h1 h2
    have e1 := cellAt_unique birthdate darkenUntil hb rows start hstart g heg r c _ h1
    have e2 := cellAt_unique birthdate darkenUntil hb rows start hstart g heg r (c + 1) _ h2
    injection e1 with hd1 hf1
    injection e2 with hd2 hf2
    rw [hd1, hd2, (toOrdinal_addDays start hstart _).2, (toOrdinal_addDays start hstart _).2]
    have harith : 7 * (52 * r + c) < 7 * (52 * r + (c + 1)) := by omega
    push_cast
    omega
  · intro r d1 f1 d2 f2 hr h1 h2
    have e1 := cellAt_unique birthdate darkenUntil hb rows start hstart g heg r 51 _ h1
    have e2 := cellAt_unique birthdate darkenUntil hb rows start hstart g heg (r + 1) 0 _ h2
    injection e1 with hd1 hf1
    injection e2 with hd2 hf2
    rw [hd1, hd2, (toOrdinal_addDays start hstart _).2, (toOrdinal_addDays start hstart _).2]
    have harith : 7 * (52 * r + 51) < 7 * (52 * (r + 1) + 0) := by omega
    push_cast
    omega

theorem grid_dates_affine_monotone_witness :
    valid_month_day (PyDate.mk 1990 6 15).month (PyDate.mk 1990 6 15).day ∧
    PyDate.valid (⟨1990, 6, 10⟩ : PyDate) ∧
    (∃ g, draw_grid_cells ⟨1990, 6, 15⟩ none ⟨1990, 6, 10⟩ 80 = some g ∧
      (∀ r c, r < 80 → c < NUM_COLUMNS → ∃ f,
        cellAt g r c = some (addDays ⟨1990, 6, 10⟩ (7 * (52 * r + c)), f) ∧
        toOrdinal (addDays ⟨1990, 6, 10⟩ (7 * (52 * r + c))) =
          toOrdinal ⟨1990, 6, 10⟩ + (7 * (52 * r + c) : ℕ)) ∧
      (∀ r c d1 f1 d2 f2, r < 80 → c + 1 < NUM_COLUMNS →
        cellAt g r c = some (d1, f1) → cellAt g r (c + 1) = some (d2, f2) →
        toOrdinal d1 < toOrdinal d2) ∧
      (∀ r d1 f1 d2 f2, r + 1 < 80 →
        cellAt g r 51 = some (d1, f1) → cellAt g (r + 1) 0 = some (d2, f2) →
        toOrdinal d1 < toOrdinal d2)) :=
  ⟨by decide, witness_start_valid,
    grid_dates_affine_monotone ⟨1990, 6, 15⟩ ⟨1990, 6, 10⟩ none 80
      (by decide) witness_start_valid⟩

/-- C10: every fill actually handed to the square-drawing call has all three
channels inside [0, 1]; indeed, because the only reachable base fills are
white, the birthday grey and the new-year grey, every channel stays at least
0.1 even after the unclamped darkening subtraction of 0.4. -/
theorem cell_fill_channels_bounded (birthdate start : PyDate)
    (darkenUntil : Option PyDate) (rows : ℕ)
    (hb : valid_month_day birthdate.month birthdate.day)
    (hstart : PyDate.valid start) :
    ∃ g, draw_grid_cells birthdate darkenUntil start rows = some g ∧
      ∀ row ∈ g, ∀ cell ∈ row,
        ((0 : ℚ) ≤ cell.2.1 ∧ cell.2.1 ≤ 1) ∧
        ((0 : ℚ) ≤ cell.2.2.1 ∧ cell.2.2.1 ≤ 1) ∧
        ((0 : ℚ) ≤ cell.2.2.2 ∧ cell.2.2.2 ≤ 1) ∧
        ((1 : ℚ) / 10 ≤ cell.2.1 ∧ (1 : ℚ) / 10 ≤ cell.2.2.1 ∧
          (1 : ℚ) / 10 ≤ cell.2.2.2) := by
  obtain ⟨g, heg, hlen, hcell⟩ :=
    draw_grid_cells_spec birthdate darkenUntil hb rows start hstart
  refine ⟨g, heg, ?_⟩
  intro row hrow cell hc
  obtain ⟨r, hgr⟩ := List.mem_iff_get?.mp hrow
  obtain ⟨c, hrc⟩ := List.mem_iff_get?.mp hc
  have hcw := (hcell r row hgr).2 c cell hrc
  have hbnd := cellFillPure_bounds birthdate darkenUntil (addDays start (7 * (52 * r + c)))
  rw [hcw]
  exact ⟨⟨by linarith [hbnd.1.1], hbnd.1.2⟩,
    ⟨by linarith [hbnd.2.1.1], hbnd.2.1.2⟩,
    ⟨by linarith [hbnd.2.2.1], hbnd.2.2.2⟩,
    hbnd.1.1, hbnd.2.1.1, hbnd.2.2.1⟩

theorem cell_fill_channels_bounded_witness :
    valid_month_day (PyDate.mk 1990 6 15).month (PyDate.mk 1990 6 15).day ∧
    PyDate.valid (⟨1990, 6, 10⟩ : PyDate) ∧
    (∃ g, draw_grid_cells ⟨1990, 6, 15⟩ (some ⟨2020, 1, 5⟩) ⟨1990, 6, 10⟩ 80 = some g ∧
      ∀ row ∈ g, ∀ cell ∈ row,
        ((0 : ℚ) ≤ cell.2.1 ∧ cell.2.1 ≤ 1) ∧
        ((0 : ℚ) ≤ cell.2.2.1 ∧ cell.2.2.1 ≤ 1) ∧
        ((0 : ℚ) ≤ cell.2.2.2 ∧ cell.2.2.2 ≤ 1) ∧
        ((1 : ℚ) / 10 ≤ cell.2.1 ∧ (1 : ℚ) / 10 ≤ cell.2.2.1 ∧
          (1 : ℚ) / 10 ≤ cell.2.2.2)) :=
  ⟨by decide, witness_start_valid,
    cell_fill_channels_bounded ⟨1990, 6, 15⟩ ⟨1990, 6, 10⟩ (some ⟨2020, 1, 5⟩) 80
      (by decide) witness_start_valid⟩
